import Mathlib

/-!
Verification of the workflow-bolt inter-agent messaging bus.

This file gives a shallow embedding, in Lean 4, of the messaging-bus core of
the repository: message validation and sending with retry/fallback
(`functions/shared/dev_comm.py`, class `DevCommV2`), the shared developer
communication layer with dedup, routing, task locks, rate limiting
(`functions/shared/shared_devcomm.py`, class `SharedDevComm`), and the
Redis event bus with request/response correlation and the consumer-group
replier (`ai-agents/redis_event_bus.py`, `ai-agents/redis_event_bus_replier.py`).

Modelling conventions:
* JSON values are modelled by the inductive `JVal`; a Python dict is an
  association list `Msg` that preserves insertion order, with `setField`
  matching dict assignment (update in place, append new keys at the end)
  and `getField` matching dict lookup.
* `json.dumps` is modelled by `dumpsMsg` (default separators, insertion
  order) and `dumpsSortedMsg` (sort_keys=True).  String escaping is not
  modelled: the model assumes strings free of characters that JSON needs
  to escape.  Sizes are in characters, which agrees with bytes for ASCII.
* `hashlib.sha256(...).hexdigest()[:8]` is modelled by `hashDigest`, an
  injective stand-in (the identity on the serialized text): the dedup
  logic observes digests only through equality, and the model ignores
  hash collisions.
* The Redis key-value store is a list of entries with absolute expiry
  times; streams are per-channel append-ordered lists of decoded entries.
  Atomicity of SET NX EX and INCR is inherited by modelling each call as
  one step on the state.
* Wall-clock inputs (seconds `now`, milliseconds `nowMs`, ISO text
  `nowIso`) are explicit parameters.
-/

/-- A JSON value as used by the bus: strings, integers, booleans, null and
objects.  Lists do not occur in the code paths under verification. -/
inductive JVal where
  | s : String → JVal
  | i : Int → JVal
  | b : Bool → JVal
  | null : JVal
  | obj : List (String × JVal) → JVal

/-- A Python dict with string keys, in insertion order. -/
abbrev Msg := List (String × JVal)

/-- Dict lookup: `message.get(k)`; returns the value of the first (unique)
binding of the key. -/
def getField (m : Msg) (k : String) : Option JVal :=
  match m with
  | [] => none
  | (k2, v) :: rest => if k2 = k then some v else getField rest k

/-- Dict assignment `message[k] = v`: replaces the value in place keeping
the key position, or appends the new key at the end, as a Python dict does. -/
def setField (m : Msg) (k : String) (v : JVal) : Msg :=
  match m with
  | [] => [(k, v)]
  | (k2, v2) :: rest => if k2 = k then (k2, v) :: rest else (k2, v2) :: setField rest k v

/-- `dict.update` / `{**m, ...}` with the given bindings applied in order. -/
def updateFields (m : Msg) : List (String × JVal) → Msg
  | [] => m
  | (k, v) :: rest => updateFields (setField m k v) rest

/-- Python truthiness of a JSON value (empty string, zero, False, None and
the empty dict are falsy). -/
def JVal.truthy : JVal → Bool
  | .s x => !x.isEmpty
  | .i n => !(n == 0)
  | .b v => v
  | .null => false
  | .obj l => !l.isEmpty

/-- Python `str()` of a JSON value, as an f-string would render it. -/
def JVal.pyStr : JVal → String
  | .s x => x
  | .i n => toString n
  | .b true => "True"
  | .b false => "False"
  | .null => "None"
  | .obj _ => "dict"

/-- A JSON string literal.  Escaping is not modelled (see the header). -/
def jstr (s : String) : String := "\"" ++ s ++ "\""

mutual

/-- `json.dumps` of a value, with the Python default separators. -/
def JVal.dumps : JVal → String
  | .s x => jstr x
  | .i n => toString n
  | .b true => "true"
  | .b false => "false"
  | .null => "null"
  | .obj l => "\x7b" ++ dumpsPairs l ++ "\x7d"

/-- `json.dumps` of the bindings of an object, comma separated. -/
def dumpsPairs : List (String × JVal) → String
  | [] => ""
  | [(k, v)] => jstr k ++ ": " ++ v.dumps
  | (k, v) :: p :: rest => jstr k ++ ": " ++ v.dumps ++ ", " ++ dumpsPairs (p :: rest)

end

/-- `json.dumps(message)` on a top-level dict. -/
def dumpsMsg (m : Msg) : String := JVal.dumps (.obj m)

/-- Lexicographic order on code points, as Python compares strings. -/
def charsLe : List Char → List Char → Bool
  | [], _ => true
  | _ :: _, [] => false
  | c :: cs, d :: ds =>
      if c.toNat < d.toNat then true
      else if d.toNat < c.toNat then false
      else charsLe cs ds

/-- String comparison by code points (the sort order of `sort_keys`). -/
def strLe (a b : String) : Bool := charsLe a.data b.data

/-- Insertion into a key-sorted binding list. -/
def insertByKey (p : String × JVal) : List (String × JVal) → List (String × JVal)
  | [] => [p]
  | q :: rest => if strLe p.1 q.1 then p :: q :: rest else q :: insertByKey p rest

/-- Sort bindings by key (the order `json.dumps(..., sort_keys=True)` uses). -/
def sortByKey : List (String × JVal) → List (String × JVal)
  | [] => []
  | p :: rest => insertByKey p (sortByKey rest)

mutual

/-- Recursively sort every object of a value by key. -/
def sortDeep : JVal → JVal
  | .s s => .s s
  | .i n => .i n
  | .b b => .b b
  | .null => .null
  | .obj l => .obj (sortByKey (sortDeepPairs l))

/-- Recursively sort the values of a binding list. -/
def sortDeepPairs : List (String × JVal) → List (String × JVal)
  | [] => []
  | (k, v) :: rest => (k, sortDeep v) :: sortDeepPairs rest

end

/-- `json.dumps(message, sort_keys=True)` on a top-level dict. -/
def dumpsSortedMsg (m : Msg) : String := JVal.dumps (sortDeep (.obj m))

/-- `hashlib.sha256(text.encode()).hexdigest()[:8]`, modelled as an
injective digest of the serialized text (see the header). -/
def hashDigest (s : String) : String := s

/-! ## DevCommV2 message validation (`functions/shared/dev_comm.py`) -/

/-- `len(message.get('subject', ''))`.  The source assumes a string
subject; a non-string subject would raise TypeError, outside this model. -/
def subjectLen (m : Msg) : Nat :=
  match getField m "subject" with
  | some (.s s) => s.length
  | _ => 0

/-- `message.get('priority') in ['low', 'normal', 'high', 'critical']`. -/
def priorityOk (m : Msg) : Bool :=
  match getField m "priority" with
  | some (.s p) => p == "low" || p == "normal" || p == "high" || p == "critical"
  | _ => false

/-- Truthiness of `message.get(k)`. -/
def fieldTruthy (m : Msg) (k : String) : Bool :=
  match getField m k with
  | some v => v.truthy
  | none => false

/-- `len(json.dumps(message))`. -/
def serializedSize (m : Msg) : Nat := (dumpsMsg m).length

/-- `DevCommV2._validate_message`: the asserts of the source, in order;
the error text is the assert message of the first failing check. -/
def validate_message (m : Msg) : Except String Unit :=
  if ¬ (subjectLen m ≤ 100) then .error "Subject too long"
  else if ¬ (serializedSize m ≤ 4096) then .error "Message too large"
  else if ¬ fieldTruthy m "sender" then .error "Sender required"
  else if ¬ fieldTruthy m "type" then .error "Type required"
  else if ¬ priorityOk m then .error "Invalid priority"
  else if ¬ fieldTruthy m "body" then .error "Body required"
  else .ok ()

/-- The rejection condition exactly as claim C5 words it: subject over 100
characters, serialized size over 4096 bytes, sender, type or body missing,
or priority outside the enum.  Written from the claim, to be compared with
`validate_message`, which is written from the source. -/
def claimC5Reject (m : Msg) : Bool :=
  decide (subjectLen m > 100) || decide (serializedSize m > 4096) ||
  (getField m "sender").isNone || (getField m "type").isNone ||
  (getField m "body").isNone || !priorityOk m

/-- The rejection condition the source actually implements: as the claim,
except that a present-but-falsy (empty) sender, type or body also rejects. -/
def amendedC5Reject (m : Msg) : Bool :=
  decide (subjectLen m > 100) || decide (serializedSize m > 4096) ||
  !fieldTruthy m "sender" || !fieldTruthy m "type" ||
  !fieldTruthy m "body" || !priorityOk m

/-! ## Broker state: key-value store with expiry, and streams -/

/-- One key of the key-value store: value and optional absolute expiry
time in seconds (the key is gone at times at or past the expiry). -/
structure KVEntry where
  key : String
  val : JVal
  expiresAt : Option Nat

/-- The key-value store. -/
abbrev KV := List KVEntry

/-- Whether an entry is still live at time `now`. -/
def entryLive (now : Nat) (e : KVEntry) : Bool :=
  match e.expiresAt with
  | none => true
  | some t => now < t

/-- `GET key` at time `now`: the value of the live entry, if any. -/
def kvGet (kv : KV) (now : Nat) (k : String) : Option JVal :=
  match kv.find? (fun e => e.key == k && entryLive now e) with
  | some e => some e.val
  | none => none

/-- Drop every entry of the key (used when a set replaces the key). -/
def kvRemove (kv : KV) (k : String) : KV :=
  kv.filter (fun e => e.key != k)

/-- `SET key value NX EX ttl` at time `now`: fails if the key is live,
otherwise writes the value with expiry `now + ttl`.  Atomic in Redis; one
step here. -/
def kvSetNX (kv : KV) (now : Nat) (k : String) (v : JVal) (ttl : Nat) : Bool × KV :=
  match kvGet kv now k with
  | some _ => (false, kv)
  | none => (true, ⟨k, v, some (now + ttl)⟩ :: kvRemove kv k)

/-- `SETEX key ttl value` at time `now`: unconditional write with expiry. -/
def kvSetEx (kv : KV) (now : Nat) (k : String) (v : JVal) (ttl : Nat) : KV :=
  ⟨k, v, some (now + ttl)⟩ :: kvRemove kv k

/-- `INCR key` at time `now`: creates the key at 1 with no expiry if it is
absent or expired, else adds one keeping the current expiry; returns the
new value.  The Redis error on a non-integer value is outside the model
(the rate-limit key only ever holds an integer). -/
def kvIncr (kv : KV) (now : Nat) (k : String) : Int × KV :=
  match kvGet kv now k with
  | some (.i n) =>
      (n + 1, kv.map (fun e => if e.key == k then { e with val := .i (n + 1) } else e))
  | some _ => (1, kv)
  | none => (1, ⟨k, .i 1, none⟩ :: kvRemove kv k)

/-- `EXPIRE key ttl` at time `now`: sets the expiry of the live entry. -/
def kvExpire (kv : KV) (now : Nat) (k : String) (ttl : Nat) : KV :=
  kv.map (fun e => if e.key == k && entryLive now e then { e with expiresAt := some (now + ttl) } else e)

/-- Streams: per-channel append-ordered lists of decoded entry payloads.
An absent channel is the empty stream. -/
abbrev Streams := List (String × List Msg)

/-- The entries of a channel, in append order. -/
def streamOf (ss : Streams) (ch : String) : List Msg :=
  match ss with
  | [] => []
  | (c, l) :: rest => if c = ch then l else streamOf rest ch

/-- `XADD channel {..} `: appends one entry to the channel (creating it),
leaving every other channel unchanged.  The maxlen trimming of the source
only bounds retention and is not modelled. -/
def xadd (ss : Streams) (ch : String) (m : Msg) : Streams :=
  match ss with
  | [] => [(ch, [m])]
  | (c, l) :: rest => if c = ch then (c, l ++ [m]) :: rest else (c, l) :: xadd rest ch m

/-- The broker state seen by `SharedDevComm`: the key-value keys and the
stream channels of one Redis instance. -/
structure Broker where
  kv : KV
  streams : Streams

/-! ## DevCommV2.send (`functions/shared/dev_comm.py`) -/

/-- Errors surfaced by `DevCommV2.send`: a failed validation assert, or
the final raise after all retries failed (the `BrokerUnavailable` of the
specification, a bare `Exception("DevComm send failed after retries")` in
the source). -/
inductive DevErr where
  | validation : String → DevErr
  | brokerUnavailable : DevErr
deriving DecidableEq, Repr

/-- What one call of `DevCommV2.send` did: the serialized payload handed
to `xadd` on each attempt in order, the lines appended to the local
fallback file `devcomm_failed_messages.jsonl` (without the trailing
newline), and the outcome (index of the successful attempt, or an error). -/
structure SendTrace where
  attempts : List String
  fallbackLines : List String
  result : Except DevErr Nat

/-- The metadata `DevCommV2.send` stamps before the retry loop:
`id = f"{message['sender']}-{millis}"`, the ISO timestamp, the protocol
version and `attempt = 0`, each assigned once, in this order. -/
def stampMessage (m : Msg) (nowMs : Nat) (nowIso : String) : Msg :=
  let sender := (getField m "sender").getD .null
  let m1 := setField m "id" (.s (sender.pyStr ++ "-" ++ toString nowMs))
  let m2 := setField m1 "timestamp" (.s nowIso)
  let m3 := setField m2 "version" (.s "2.0")
  setField m3 "attempt" (.i 0)

/-- The first attempt index on which the broker append succeeds, if any;
`ok i` tells whether the `xadd` of attempt `i` raises. -/
def firstSuccess (ok : Nat → Bool) (retry : Nat) : Option Nat :=
  (List.range retry).find? ok

/-- `DevCommV2.send(message, retry)`: validate, stamp the metadata, then
try the append up to `retry` times; on exhaustion append one line to the
local fallback file and raise.  `ok` is the environment: whether the
broker accepts attempt `i`.  The backoff sleeps only pace the retries and
are not modelled. -/
def devcomm_send (m : Msg) (nowMs : Nat) (nowIso : String) (ok : Nat → Bool)
    (retry : Nat := 3) : SendTrace :=
  match validate_message m with
  | .error e => { attempts := [], fallbackLines := [], result := .error (.validation e) }
  | .ok _ =>
    let m2 := stampMessage m nowMs nowIso
    let payload := dumpsMsg m2
    match firstSuccess ok retry with
    | some j =>
        { attempts := List.replicate (j + 1) payload, fallbackLines := [], result := .ok j }
    | none =>
        { attempts := List.replicate retry payload,
          fallbackLines := [payload],
          result := .error .brokerUnavailable }

/-! ## SharedDevComm (`functions/shared/shared_devcomm.py`) -/

/-- What one `SharedDevComm._send_message` call did: the broker state
after the call, the message dict after its in-place mutation (the caller
keeps using it), and whether the dedup gate admitted the send. -/
structure SendMsgResult where
  broker : Broker
  message : Msg
  admitted : Bool

/-- `SharedDevComm._send_message(channel, message)`: stamp
`msg_id = f"{agent}-{millis}"` into the dict, hash the whole dict
(msg_id included, and any prior hash field included) with sort_keys, then
atomically set `dev:dedup:{hash}` for 60 seconds; append to the channel
only if the dedup key was absent. -/
def send_message_shared (agent : String) (ch : String) (m : Msg) (br : Broker)
    (now : Nat) (nowMs : Nat) : SendMsgResult :=
  let msgId := agent ++ "-" ++ toString nowMs
  let m1 := setField m "msg_id" (.s msgId)
  let h := hashDigest (dumpsSortedMsg m1)
  let m2 := setField m1 "hash" (.s h)
  let dedupKey := "dev:dedup:" ++ h
  let res := kvSetNX br.kv now dedupKey (.s "1") 60
  { broker := { kv := res.2,
                streams := if res.1 then xadd br.streams ch m2 else br.streams },
    message := m2, admitted := res.1 }

/-- `SharedDevComm.send_broadcast(message)`: stamp `from`, `to = "all"`
and `sent_at`, then send on the general channel. -/
def send_broadcast (agent : String) (m : Msg) (br : Broker)
    (now : Nat) (nowMs : Nat) (nowIso : String) : SendMsgResult :=
  let m1 := updateFields m [("from", .s agent), ("to", .s "all"), ("sent_at", .s nowIso)]
  send_message_shared agent "dev:channels:general" m1 br now nowMs

/-- What one `SharedDevComm.send_targeted_message` call did. -/
structure TargetedResult where
  broker : Broker
  inboxMsg : Msg
  copyMsg : Msg
  inboxAdmitted : Bool
  copyAdmitted : Bool

/-- `SharedDevComm.send_targeted_message(recipient, message)`: stamp
`from`, `to = recipient` and `sent_at`; send to the inbox channel
`dev:channels:{recipient}`; then send `{**message, "copy": True}` (the
dict as mutated by the first send) to the general channel.  The two sends
read the clock separately (`nowMs1`, `nowMs2`). -/
def send_targeted_message (agent recipient : String) (m : Msg) (br : Broker)
    (now : Nat) (nowMs1 nowMs2 : Nat) (nowIso : String) : TargetedResult :=
  let m1 := updateFields m [("from", .s agent), ("to", .s recipient), ("sent_at", .s nowIso)]
  let inbox := "dev:channels:" ++ recipient
  let r1 := send_message_shared agent inbox m1 br now nowMs1
  let copy := setField r1.message "copy" (.b true)
  let r2 := send_message_shared agent "dev:channels:general" copy r1.broker now nowMs2
  { broker := r2.broker, inboxMsg := r1.message, copyMsg := r2.message,
    inboxAdmitted := r1.admitted, copyAdmitted := r2.admitted }

/-- What one `SharedDevComm.claim_task` call did: the broker state after
the call, whether the lock was acquired, and the owner printed from the
existing record on contention. -/
structure ClaimResult where
  broker : Broker
  acquired : Bool
  reportedOwner : Option String

/-- The lock record `claim_task` stores under `dev:locks:task:{task_id}`. -/
def lockRecord (agent : String) (nowIso : String) (duration : Nat) : Msg :=
  [("owner", .s agent), ("acquired_at", .s nowIso), ("duration", .i duration)]

/-- `SharedDevComm.claim_task(task_id, duration)`: atomic set-if-absent of
the lock record with expiry `duration`; on success broadcast a
`task_claimed` event and return true; on failure read the existing record
and report its owner, returning false. -/
def claim_task (agent taskId : String) (duration : Nat) (br : Broker)
    (now : Nat) (nowMs : Nat) (nowIso : String) : ClaimResult :=
  let lockKey := "dev:locks:task:" ++ taskId
  let res := kvSetNX br.kv now lockKey (.obj (lockRecord agent nowIso duration)) duration
  let br2 : Broker := { br with kv := res.2 }
  if res.1 then
    let bmsg : Msg := [("type", .s "task_claimed"), ("task_id", .s taskId), ("owner", .s agent)]
    let r := send_broadcast agent bmsg br2 now nowMs nowIso
    { broker := r.broker, acquired := true, reportedOwner := none }
  else
    match kvGet br2.kv now lockKey with
    | some (.obj rec) =>
        { broker := br2, acquired := false,
          reportedOwner := match getField rec "owner" with
                           | some (.s o) => some o
                           | _ => none }
    | _ => { broker := br2, acquired := false, reportedOwner := none }

/-- What one `SharedDevComm.check_rate_limit` call did: the store after
the call, the post-increment count, and whether the rate-limit exception
was raised. -/
structure RateResult where
  kv : KV
  count : Int
  limited : Bool

/-- `SharedDevComm.check_rate_limit()`: `INCR` the per-agent key; on a
count of 1 give the key a 3600 second expiry; raise when the count
exceeds 100. -/
def check_rate_limit (agent : String) (kv : KV) (now : Nat) : RateResult :=
  let rateKey := "dev:ratelimit:" ++ agent
  let res := kvIncr kv now rateKey
  let kv2 := if res.1 == 1 then kvExpire res.2 now rateKey 3600 else res.2
  { kv := kv2, count := res.1, limited := res.1 > 100 }

/-- A sequence of `check_rate_limit` calls at the given times, collecting
whether each call raised. -/
def check_rate_limit_times (agent : String) (kv : KV) : List Nat → List Bool × KV
  | [] => ([], kv)
  | t :: rest =>
      let r := check_rate_limit agent kv t
      let rec2 := check_rate_limit_times agent r.kv rest
      (r.limited :: rec2.1, rec2.2)

/-! ## Redis event bus (`ai-agents/redis_event_bus.py`) -/

/-- The shared stream name of the event bus. -/
def STREAM_NAME : String := "agent_updates"

/-- What one `send_message` call produces: the target stream and the
field map handed to `xadd`. -/
structure BusSend where
  stream : String
  data : Msg

/-- `send_message(client, sender, action, payload, correlation_id,
reply_to, message_type)`: builds the message data in field order (sender,
action, timestamp, message_type, then correlation_id and reply_to when
given, then the serialized payload, with `"{}"` for a missing or empty
payload); a request without a correlation id generates
`{sender}_{millis}`; a direct message with a reply_to goes to that
inbox stream, everything else to the shared stream. -/
def bus_send_message (sender action : String) (payload : Option Msg)
    (corrId replyTo : Option String) (msgType : String)
    (nowMs : Nat) (nowIso : String) : BusSend :=
  let corrId2 := if msgType == "request" && corrId.isNone
                 then some (sender ++ "_" ++ toString nowMs) else corrId
  let base : Msg := [("sender", .s sender), ("action", .s action),
                     ("timestamp", .s nowIso), ("message_type", .s msgType)]
  let base := match corrId2 with
              | some c => base ++ [("correlation_id", .s c)]
              | none => base
  let base := match replyTo with
              | some r => base ++ [("reply_to", .s r)]
              | none => base
  let base := base ++ [("payload", .s (dumpsMsg (payload.getD [])))]
  let stream := match replyTo with
                | some r => if msgType == "direct" then "agent_inbox:" ++ r else STREAM_NAME
                | none => STREAM_NAME
  { stream := stream, data := base }

/-- The correlation id `send_request` generates: `f"{sender}_{millis}"`. -/
def send_request_corr (sender : String) (nowMs : Nat) : String :=
  sender ++ "_" ++ toString nowMs

/-- An entry of a stream as a reader sees it: the broker-assigned entry id
(monotonically increasing, here a natural number) and the decoded fields. -/
abbrev BusEntry := Nat × Msg

/-- The match condition of `wait_for_response`:
`message_data.get("message_type") in ["response", "direct"]` and
`message_data.get("correlation_id") == correlation_id`. -/
def isResponseFor (cid : String) (m : Msg) : Bool :=
  (match getField m "message_type" with
   | some (.s t) => t == "response" || t == "direct"
   | _ => false)
  &&
  (match getField m "correlation_id" with
   | some (.s c) => c == cid
   | _ => false)

/-- `xread({STREAM: cursor}, count, block)` over a static stream: the
first `count` entries with id past the cursor. -/
def readBatch (entries : List BusEntry) (cursor : Nat) (count : Nat) : List BusEntry :=
  (entries.filter (fun e => cursor < e.1)).take count

/-- The inner for-loop of `wait_for_response`: walk a batch advancing
`last_id` to each entry id in turn; stop at the first matching entry.
Returns the match, if any, and the final `last_id`. -/
def scanBatch (cid : String) : List BusEntry → Nat → Option BusEntry × Nat
  | [], last => (none, last)
  | e :: rest, _ => if isResponseFor cid e.2 then (some e, e.1) else scanBatch cid rest e.1

/-- `wait_for_response(client, correlation_id, timeout_seconds)` over a
static stream.  The loop first returns None once the elapsed seconds
exceed the timeout, otherwise performs a blocking read (count 10, block
1000 ms) from the cursor: an empty read costs one second of elapsed time,
a non-empty read returns at once and is scanned, advancing the cursor.
Returns the found entry (or none) and the elapsed time at return.  `fuel`
bounds the recursion and is chosen large enough in the theorems. -/
def wait_for_response (fuel : Nat) (entries : List BusEntry) (cid : String)
    (timeout : Nat) (cursor : Nat) (elapsed : Nat) : Option BusEntry × Nat :=
  match fuel with
  | 0 => (none, elapsed)
  | fuel + 1 =>
    if timeout < elapsed then (none, elapsed)
    else
      match readBatch entries cursor 10 with
      | [] => wait_for_response fuel entries cid timeout cursor (elapsed + 1)
      | e :: bs =>
        match scanBatch cid (e :: bs) cursor with
        | (some r, _) => (some r, elapsed)
        | (none, last) => wait_for_response fuel entries cid timeout last elapsed

/-! ## Consumer-group replier (`ai-agents/redis_event_bus_replier.py`) -/

/-- An observable action of the replier loop: a `send_message` call (the
reply data, sent to the shared stream) or an `XACK` of an entry id. -/
inductive BusEvent where
  | sent : Msg → BusEvent
  | acked : Nat → BusEvent

/-- `data.get("payload", {})` on a decoded entry.  The source assumes a
dict payload (a non-dict would fail the `**payload` splice); the model
reads non-dict payloads as the default. -/
def getPayloadObj (m : Msg) : Msg :=
  match getField m "payload" with
  | some (.obj l) => l
  | _ => []

/-- Python equality of a JSON value with a string literal (`==` between a
non-string and a string is False). -/
def jvalIsStr (v : JVal) (s : String) : Bool :=
  match v with
  | .s x => x == s
  | _ => false

/-- The reply `main` of the replier sends for one decoded entry, by the
if/elif chain of the source: `hello_world` gets a `hello_reply` with
`{"to": sender}`; `lock_shell` and `unlock_shell` get `lock_ack` /
`unlock_ack` with `{"to": sender, **payload}`; anything else gets an
`unhandled_action` note with the original action and sender. -/
def replyFor (consumer : String) (nowMs : Nat) (nowIso : String) (data : Msg) : Msg :=
  let actionVal := (getField data "action").getD .null
  let senderVal := (getField data "sender").getD .null
  let payload := getPayloadObj data
  let mk := fun (action : String) (pl : Msg) =>
    (bus_send_message consumer action (some pl) none none "broadcast" nowMs nowIso).data
  if jvalIsStr actionVal "hello_world" then mk "hello_reply" [("to", senderVal)]
  else if jvalIsStr actionVal "lock_shell" then
    mk "lock_ack" (updateFields [("to", senderVal)] payload)
  else if jvalIsStr actionVal "unlock_shell" then
    mk "unlock_ack" (updateFields [("to", senderVal)] payload)
  else mk "unhandled_action" [("original_action", actionVal), ("from", senderVal)]

/-- The per-batch body of the replier `main` loop: for each claimed entry,
in order, send exactly one reply and then acknowledge the entry. -/
def replier_process_batch (consumer : String) (nowMs : Nat) (nowIso : String) :
    List BusEntry → List BusEvent
  | [] => []
  | e :: rest =>
      .sent (replyFor consumer nowMs nowIso e.2) :: .acked e.1 ::
        replier_process_batch consumer nowMs nowIso rest

/-- The reply action named by the dispatch table of the source (and of the
specification): the three registered handlers, with the unhandled-action
fallback. -/
def specReplyAction : Option String → String
  | some a =>
      if a == "hello_world" then "hello_reply"
      else if a == "lock_shell" then "lock_ack"
      else if a == "unlock_shell" then "unlock_ack"
      else "unhandled_action"
  | none => "unhandled_action"

/-- The action of a decoded entry, when it is a string. -/
def actionStrOf (m : Msg) : Option String :=
  match getField m "action" with
  | some (.s a) => some a
  | _ => none

/-- Whether an event is the XACK of the given entry id. -/
def isAckOf (entryId : Nat) : BusEvent → Bool
  | .acked j => j == entryId
  | .sent _ => false

/-! ## DevCommV2.listen (`functions/shared/dev_comm.py`) -/

/-- The sender filter of `DevCommV2.listen`: with no filter every decoded
message passes; with a filter, only messages whose sender equals it (a
message without a sender raises KeyError there, which the loop catches
and skips, so it does not pass either). -/
def passes_filter (filt : Option String) (m : Msg) : Bool :=
  match filt with
  | none => true
  | some f =>
    match getField m "sender" with
    | some (.s x) => x == f
    | _ => false

/-- The per-batch body of `DevCommV2.listen`: decode each entry, skip it
if the sender filter rejects it (without touching the cursor), otherwise
invoke the callback and advance `last_id` to the id of the entry just
delivered.  Returns the delivered messages in order and the final cursor. -/
def listen_process_batch (filt : Option String) : List BusEntry → Nat → List Msg × Nat
  | [], last => ([], last)
  | (entryId, m) :: rest, last =>
    if passes_filter filt m then
      let r := listen_process_batch filt rest entryId
      (m :: r.1, r.2)
    else
      listen_process_batch filt rest last

/-- The per-batch behaviour claim C8 words: the listener additionally
applies the Dedup Gate to each entry, suppressing a message whose content
hash was already admitted within the window.  Written from the claim (the
source applies no such gate), to be compared with `listen_process_batch`;
`seen` carries the hashes admitted so far. -/
def listen_process_batch_claim (filt : Option String) :
    List String → List BusEntry → Nat → List Msg × Nat
  | _, [], last => ([], last)
  | seen, (entryId, m) :: rest, last =>
    if passes_filter filt m then
      let h := hashDigest (dumpsSortedMsg m)
      if seen.contains h then
        listen_process_batch_claim filt seen rest entryId
      else
        let r := listen_process_batch_claim filt (h :: seen) rest entryId
        (m :: r.1, r.2)
    else
      listen_process_batch_claim filt seen rest last

/-- The dict the `task_claimed` broadcast of a successful `claim_task`
appends (after the stamping of `send_broadcast` and `_send_message`, the
hash field not yet set): used to name its dedup key. -/
def taskClaimedMsg (agent taskId : String) (nowIso : String) (nowMs : Nat) : Msg :=
  setField
    (updateFields [("type", .s "task_claimed"), ("task_id", .s taskId), ("owner", .s agent)]
      [("from", .s agent), ("to", .s "all"), ("sent_at", .s nowIso)])
    "msg_id" (.s (agent ++ "-" ++ toString nowMs))

/-- The dedup key the `task_claimed` broadcast of `claim_task` sets. -/
def taskClaimedDedupKey (agent taskId : String) (nowIso : String) (nowMs : Nat) : String :=
  "dev:dedup:" ++ hashDigest (dumpsSortedMsg (taskClaimedMsg agent taskId nowIso nowMs))

/-- How many entries of the store carry the given key. -/
def kvCountKey (kv : KV) (k : String) : Nat :=
  kv.countP (fun e => e.key == k)

/-! # Theorems

Helper lemmas first, then one theorem per claim (with its witness or
counterexample where required). -/

theorem getField_setField (m : Msg) (k k2 : String) (v : JVal) :
    getField (setField m k v) k2 = if k2 = k then some v else getField m k2 := by
  induction m with
  | nil =>
      simp only [setField, getField]
      by_cases h : k2 = k
      · simp [h]
      · have h2 : ¬ k = k2 := fun hh => h hh.symm
        simp [h, h2]
  | cons p rest ih =>
      obtain ⟨k3, v3⟩ := p
      simp only [setField, getField]
      by_cases h1 : k3 = k <;> by_cases h2 : k2 = k <;> by_cases h3 : k3 = k2 <;>
        simp_all [getField]

theorem getField_updateFields_notin (m : Msg) (l : List (String × JVal)) (k : String)
    (h : ∀ p ∈ l, p.1 ≠ k) : getField (updateFields m l) k = getField m k := by
  induction l generalizing m with
  | nil => rfl
  | cons p rest ih =>
      obtain ⟨k2, v2⟩ := p
      have hk : k2 ≠ k := h (k2, v2) (List.mem_cons_self _ _)
      have hrest : ∀ q ∈ rest, q.1 ≠ k := fun q hq => h q (List.mem_cons_of_mem _ hq)
      have hk2 : ¬ k = k2 := fun hh => hk hh.symm
      simp only [updateFields]
      rw [ih _ hrest, getField_setField, if_neg hk2]

/-- C5 (counterexample): a field set with a present but empty `sender`
(so not missing), a type, a body and a valid priority violates none of
the conditions the claim lists, yet `_validate_message` rejects it: the
biconditional of the claim fails at this input. -/
theorem c5_counterexample :
    validate_message [("sender", .s ""), ("type", .s "status"),
        ("priority", .s "normal"), ("body", .s "hi")] = .error "Sender required"
    ∧ claimC5Reject [("sender", .s ""), ("type", .s "status"),
        ("priority", .s "normal"), ("body", .s "hi")] = false := by
  exact ⟨rfl, rfl⟩

/-- C5 (amended): validation rejects exactly when the subject exceeds 100
characters, or the serialized size exceeds 4096 bytes, or sender, type or
body is missing or empty (falsy), or the priority is not one of
low, normal, high, critical; every other field set passes. -/
theorem c5_validation_iff_amended (m : Msg) :
    validate_message m = .ok () ↔ amendedC5Reject m = false := by
  unfold validate_message amendedC5Reject
  by_cases h1 : subjectLen m ≤ 100 <;>
  by_cases h2 : serializedSize m ≤ 4096 <;>
  by_cases h3 : fieldTruthy m "sender" = true <;>
  by_cases h4 : fieldTruthy m "type" = true <;>
  by_cases h5 : priorityOk m = true <;>
  by_cases h6 : fieldTruthy m "body" = true <;>
  simp_all [Nat.not_le, gt_iff_lt]

/-- C2: the dedup window of `_send_message` does not suppress a resend of
the same content.  The same content, sent twice by the same agent one
second apart (far inside the 60 second window), is admitted both times
and appended twice, because the hash is computed over the dict after the
millisecond `msg_id` stamp, so the two sends hash differently; the claim
(and the spec) say the second send is suppressed and exactly one delivery
is admitted. -/
theorem c2_dedup_window_ineffective :
    (send_message_shared "a" "dev:channels:general"
        [("type", .s "status"), ("body", .s "hi")] ⟨[], []⟩ 0 1000).admitted = true
    ∧ (send_message_shared "a" "dev:channels:general"
        [("type", .s "status"), ("body", .s "hi")]
        (send_message_shared "a" "dev:channels:general"
          [("type", .s "status"), ("body", .s "hi")] ⟨[], []⟩ 0 1000).broker
        1 2000).admitted = true
    ∧ (streamOf (send_message_shared "a" "dev:channels:general"
        [("type", .s "status"), ("body", .s "hi")]
        (send_message_shared "a" "dev:channels:general"
          [("type", .s "status"), ("body", .s "hi")] ⟨[], []⟩ 0 1000).broker
        1 2000).broker.streams "dev:channels:general").length = 2 := by
  exact ⟨rfl, rfl, rfl⟩

/-- C10: `send` stamps exactly the fields id, timestamp, version and
attempt, once each, before the first delivery attempt, leaving every
other field of the dict unchanged; every retry attempt and any fallback
line serialize this one stamped dict, so they all carry the same id. -/
theorem c10_send_stamps_once (m : Msg) (nowMs : Nat) (nowIso : String)
    (ok : Nat → Bool) (retry : Nat) (hv : validate_message m = .ok ()) :
    getField (stampMessage m nowMs nowIso) "id"
        = some (.s (((getField m "sender").getD .null).pyStr ++ "-" ++ toString nowMs))
    ∧ getField (stampMessage m nowMs nowIso) "timestamp" = some (.s nowIso)
    ∧ getField (stampMessage m nowMs nowIso) "version" = some (.s "2.0")
    ∧ getField (stampMessage m nowMs nowIso) "attempt" = some (.i 0)
    ∧ (∀ k, k ≠ "id" → k ≠ "timestamp" → k ≠ "version" → k ≠ "attempt" →
        getField (stampMessage m nowMs nowIso) k = getField m k)
    ∧ (∀ p ∈ (devcomm_send m nowMs nowIso ok retry).attempts,
        p = dumpsMsg (stampMessage m nowMs nowIso))
    ∧ (∀ p ∈ (devcomm_send m nowMs nowIso ok retry).fallbackLines,
        p = dumpsMsg (stampMessage m nowMs nowIso)) := by
  refine ⟨?_, ?_, ?_, ?_, ?_, ?_, ?_⟩
  · simp [stampMessage, getField_setField]
  · simp [stampMessage, getField_setField]
  · simp [stampMessage, getField_setField]
  · simp [stampMessage, getField_setField]
  · intro k hk1 hk2 hk3 hk4
    simp [stampMessage, getField_setField, hk1, hk2, hk3, hk4]
  · intro p hp
    rcases h : firstSuccess ok retry with _ | j <;>
      simp only [devcomm_send, hv, h] at hp <;>
      exact List.eq_of_mem_replicate hp
  · intro p hp
    rcases h : firstSuccess ok retry with _ | j <;>
      simp only [devcomm_send, hv, h] at hp
    · simp only [List.mem_singleton] at hp
      exact hp
    · simp at hp

/-- C10 (witness): a concrete valid message with the environment failing
the first delivery attempt only: the stamped dict carries attempt 0 and
every payload handed to the broker is the serialization of the stamped
dict. -/
theorem c10_witness :
    getField (stampMessage [("sender", .s "claude"), ("type", .s "task"),
        ("priority", .s "high"), ("subject", .s "X"), ("body", .s "do X")] 7 "I") "attempt"
      = some (.i 0)
    ∧ ∀ p ∈ (devcomm_send [("sender", .s "claude"), ("type", .s "task"),
        ("priority", .s "high"), ("subject", .s "X"), ("body", .s "do X")] 7 "I"
        (fun j => j == 1) 3).attempts,
        p = dumpsMsg (stampMessage [("sender", .s "claude"), ("type", .s "task"),
          ("priority", .s "high"), ("subject", .s "X"), ("body", .s "do X")] 7 "I") := by
  refine ⟨?_, ?_⟩
  · exact (c10_send_stamps_once [("sender", .s "claude"), ("type", .s "task"),
        ("priority", .s "high"), ("subject", .s "X"), ("body", .s "do X")] 7 "I" (fun j => j == 1) 3 rfl).2.2.2.1
  · exact (c10_send_stamps_once [("sender", .s "claude"), ("type", .s "task"),
        ("priority", .s "high"), ("subject", .s "X"), ("body", .s "do X")] 7 "I" (fun j => j == 1) 3 rfl).2.2.2.2.2.1

/-- C1: for a message passing validation, when all three append attempts
fail, `send` appends exactly one line to the local fallback file — the
serialization of the stamped dict, whose hash field is exactly the hash
field of the input message — and raises the broker-unavailable error. -/
theorem c1_fallback_and_raise (m : Msg) (nowMs : Nat) (nowIso : String)
    (ok : Nat → Bool) (hv : validate_message m = .ok ())
    (hfail : ∀ j < 3, ok j = false) :
    (devcomm_send m nowMs nowIso ok 3).fallbackLines
        = [dumpsMsg (stampMessage m nowMs nowIso)]
    ∧ (devcomm_send m nowMs nowIso ok 3).result = .error .brokerUnavailable
    ∧ getField (stampMessage m nowMs nowIso) "hash" = getField m "hash" := by
  have hfs : firstSuccess ok 3 = none := by
    apply List.find?_eq_none.mpr
    intro x hx
    have hx3 := hfail x (List.mem_range.mp hx)
    simp [hx3]
  refine ⟨?_, ?_, ?_⟩
  · simp [devcomm_send, hv, hfs]
  · simp [devcomm_send, hv, hfs]
  · simp [stampMessage, getField_setField]

/-- C1 (witness): a concrete valid message carrying a hash field, with a
broker that rejects every attempt: validation passes and the fallback
file receives exactly the one serialized stamped line. -/
theorem c1_witness :
    validate_message [("sender", .s "a"), ("type", .s "status"),
        ("priority", .s "normal"), ("body", .s "hi"), ("hash", .s "abc12345")] = .ok ()
    ∧ (devcomm_send [("sender", .s "a"), ("type", .s "status"),
        ("priority", .s "normal"), ("body", .s "hi"), ("hash", .s "abc12345")] 5 "T"
        (fun _ => false) 3).fallbackLines
      = [dumpsMsg (stampMessage [("sender", .s "a"), ("type", .s "status"),
          ("priority", .s "normal"), ("body", .s "hi"), ("hash", .s "abc12345")] 5 "T")] := by
  refine ⟨rfl, ?_⟩
  exact (c1_fallback_and_raise [("sender", .s "a"), ("type", .s "status"),
      ("priority", .s "normal"), ("body", .s "hi"), ("hash", .s "abc12345")] 5 "T"
      (fun _ => false) rfl (by decide)).1

theorem string_append_left_inj (s a b : String) (h : s ++ a = s ++ b) : a = b := by
  have hd := congrArg String.data h
  rw [String.data_append, String.data_append] at hd
  exact String.ext (List.append_cancel_left hd)

theorem streamOf_xadd_self (ss : Streams) (ch : String) (m : Msg) :
    streamOf (xadd ss ch m) ch = streamOf ss ch ++ [m] := by
  induction ss with
  | nil => simp [xadd, streamOf]
  | cons p rest ih =>
      obtain ⟨c, l⟩ := p
      by_cases h : c = ch
      · subst h; simp [xadd, streamOf]
      · simp [xadd, streamOf, h, ih]

theorem streamOf_xadd_ne (ss : Streams) (ch ch2 : String) (m : Msg) (h : ch2 ≠ ch) :
    streamOf (xadd ss ch m) ch2 = streamOf ss ch2 := by
  have h2 : ¬ ch = ch2 := fun hh => h hh.symm
  induction ss with
  | nil => simp [xadd, streamOf, h2]
  | cons p rest ih =>
      obtain ⟨c, l⟩ := p
      by_cases h1 : c = ch
      · subst h1; simp [xadd, streamOf, h2]
      · simp [xadd, streamOf, h1, ih]

theorem send_message_shared_streams (agent ch : String) (m : Msg) (br : Broker)
    (now nowMs : Nat) :
    (send_message_shared agent ch m br now nowMs).broker.streams
      = if (send_message_shared agent ch m br now nowMs).admitted
        then xadd br.streams ch ((send_message_shared agent ch m br now nowMs).message)
        else br.streams := rfl

theorem send_message_shared_streams_admitted (agent ch : String) (m : Msg) (br : Broker)
    (now nowMs : Nat)
    (h : (send_message_shared agent ch m br now nowMs).admitted = true) :
    (send_message_shared agent ch m br now nowMs).broker.streams
      = xadd br.streams ch ((send_message_shared agent ch m br now nowMs).message) := by
  rw [send_message_shared_streams, h]
  simp

theorem send_message_shared_message_eq (agent ch : String) (m : Msg) (br : Broker)
    (now nowMs : Nat) :
    (send_message_shared agent ch m br now nowMs).message
      = setField (setField m "msg_id" (.s (agent ++ "-" ++ toString nowMs))) "hash"
          (.s (hashDigest (dumpsSortedMsg
            (setField m "msg_id" (.s (agent ++ "-" ++ toString nowMs)))))) := rfl

/-- C6: routing.  A broadcast (to = "all"), when the dedup gate admits
it, is appended to the general channel only; a targeted send, when both
of its appends are admitted, is appended to the recipient inbox channel
and as a copy tagged copy = true to the general channel, and touches no
other channel.  The channels are the same for every message, so no
routing decision depends on the type or priority fields. -/
theorem c6_routing :
    (∀ (agent : String) (m : Msg) (br : Broker) (now nowMs : Nat) (nowIso : String),
      (send_broadcast agent m br now nowMs nowIso).admitted = true →
      streamOf (send_broadcast agent m br now nowMs nowIso).broker.streams
          "dev:channels:general"
        = streamOf br.streams "dev:channels:general"
            ++ [(send_broadcast agent m br now nowMs nowIso).message]
      ∧ getField (send_broadcast agent m br now nowMs nowIso).message "to"
          = some (.s "all")
      ∧ ∀ ch, ch ≠ "dev:channels:general" →
          streamOf (send_broadcast agent m br now nowMs nowIso).broker.streams ch
            = streamOf br.streams ch)
    ∧
    (∀ (agent recipient : String) (m : Msg) (br : Broker) (now nowMs1 nowMs2 : Nat)
        (nowIso : String),
      recipient ≠ "general" →
      (send_targeted_message agent recipient m br now nowMs1 nowMs2 nowIso).inboxAdmitted
        = true →
      (send_targeted_message agent recipient m br now nowMs1 nowMs2 nowIso).copyAdmitted
        = true →
      streamOf (send_targeted_message agent recipient m br now nowMs1 nowMs2
            nowIso).broker.streams ("dev:channels:" ++ recipient)
        = streamOf br.streams ("dev:channels:" ++ recipient)
            ++ [(send_targeted_message agent recipient m br now nowMs1 nowMs2 nowIso).inboxMsg]
      ∧ streamOf (send_targeted_message agent recipient m br now nowMs1 nowMs2
            nowIso).broker.streams "dev:channels:general"
        = streamOf br.streams "dev:channels:general"
            ++ [(send_targeted_message agent recipient m br now nowMs1 nowMs2 nowIso).copyMsg]
      ∧ getField (send_targeted_message agent recipient m br now nowMs1 nowMs2
            nowIso).copyMsg "copy" = some (.b true)
      ∧ getField (send_targeted_message agent recipient m br now nowMs1 nowMs2
            nowIso).inboxMsg "to" = some (.s recipient)
      ∧ ∀ ch, ch ≠ "dev:channels:" ++ recipient → ch ≠ "dev:channels:general" →
          streamOf (send_targeted_message agent recipient m br now nowMs1 nowMs2
              nowIso).broker.streams ch
            = streamOf br.streams ch) := by
  constructor
  · intro agent m br now nowMs nowIso hadm
    dsimp only [send_broadcast] at hadm ⊢
    rw [send_message_shared_streams_admitted _ _ _ _ _ _ hadm]
    refine ⟨streamOf_xadd_self _ _ _, ?_, ?_⟩
    · rw [send_message_shared_message_eq]
      simp [getField_setField, updateFields]
    · intro ch hch
      exact streamOf_xadd_ne _ _ _ _ hch
  · intro agent recipient m br now nowMs1 nowMs2 nowIso hrec hinbox hcopy
    have hne : ("dev:channels:" ++ recipient) ≠ "dev:channels:general" := by
      intro h
      exact hrec (string_append_left_inj "dev:channels:" recipient "general" h)
    dsimp only [send_targeted_message] at hinbox hcopy ⊢
    rw [send_message_shared_streams_admitted _ _ _ _ _ _ hcopy,
        send_message_shared_streams_admitted _ _ _ _ _ _ hinbox]
    refine ⟨?_, ?_, ?_, ?_, ?_⟩
    · rw [streamOf_xadd_ne _ _ _ _ hne, streamOf_xadd_self]
    · rw [streamOf_xadd_self, streamOf_xadd_ne _ _ _ _ (Ne.symm hne)]
    · rw [send_message_shared_message_eq]
      simp [getField_setField]
    · rw [send_message_shared_message_eq]
      simp [getField_setField, updateFields]
    · intro ch hch1 hch2
      rw [streamOf_xadd_ne _ _ _ _ hch2, streamOf_xadd_ne _ _ _ _ hch1]

/-- C6 (witness): agent a sends a high-priority task to agent b on an
empty broker: both appends are admitted, the inbox channel of b holds
exactly the sent message, and the copy on the general channel is tagged
copy = true. -/
theorem c6_witness :
    streamOf (send_targeted_message "a" "b" [("type", .s "task"), ("priority", .s "high"),
        ("subject", .s "X"), ("body", .s "do X")] ⟨[], []⟩ 0 1 2 "I").broker.streams
        "dev:channels:b"
      = [(send_targeted_message "a" "b" [("type", .s "task"), ("priority", .s "high"),
          ("subject", .s "X"), ("body", .s "do X")] ⟨[], []⟩ 0 1 2 "I").inboxMsg]
    ∧ getField (send_targeted_message "a" "b" [("type", .s "task"), ("priority", .s "high"),
        ("subject", .s "X"), ("body", .s "do X")] ⟨[], []⟩ 0 1 2 "I").copyMsg "copy"
      = some (.b true) := by
  have h := c6_routing.2 "a" "b" [("type", .s "task"), ("priority", .s "high"),
    ("subject", .s "X"), ("body", .s "do X")] ⟨[], []⟩ 0 1 2 "I"
    (by decide) rfl rfl
  refine ⟨?_, h.2.2.1⟩
  have h1 := h.1
  simpa [streamOf] using h1

theorem kvRemove_key_ne (kv : KV) (k : String) : ∀ e ∈ kvRemove kv k, e.key ≠ k := by
  intro e he
  have h := List.of_mem_filter he
  simpa using h

theorem kvExpire_eq_of_ne (kv : KV) (now : Nat) (k : String) (ttl : Nat)
    (h : ∀ e ∈ kv, e.key ≠ k) : kvExpire kv now k ttl = kv := by
  induction kv with
  | nil => rfl
  | cons e rest ih =>
      have he : e.key ≠ k := h e (List.mem_cons_self _ _)
      have hrest : ∀ x ∈ rest, x.key ≠ k := fun x hx => h x (List.mem_cons_of_mem _ hx)
      have hb : (e.key == k) = false := by simp [he]
      have h2 := ih hrest
      simp only [kvExpire, List.map_cons, hb, Bool.false_and, if_neg Bool.false_ne_true]
      simp only [kvExpire] at h2
      rw [h2]

theorem kvIncrMap_eq_of_ne (kv : KV) (k : String) (n : Int)
    (h : ∀ e ∈ kv, e.key ≠ k) :
    kv.map (fun e => if e.key == k then { e with val := .i n } else e) = kv := by
  induction kv with
  | nil => rfl
  | cons e rest ih =>
      have he : e.key ≠ k := h e (List.mem_cons_self _ _)
      have hrest : ∀ x ∈ rest, x.key ≠ k := fun x hx => h x (List.mem_cons_of_mem _ hx)
      have hb : (e.key == k) = false := by simp [he]
      simp only [List.map_cons]
      rw [if_neg (by simp [hb]), ih hrest]

theorem kvGet_none_of_ne (kv : KV) (now : Nat) (k : String)
    (h : ∀ e ∈ kv, e.key ≠ k) : kvGet kv now k = none := by
  unfold kvGet
  have : kv.find? (fun e => e.key == k && entryLive now e) = none := by
    apply List.find?_eq_none.mpr
    intro e he
    have hb : (e.key == k) = false := by simp [h e he]
    simp [hb]
  rw [this]

theorem check_rate_limit_first (agent : String) (kv0 : KV) (t : Nat)
    (habs : kvGet kv0 t ("dev:ratelimit:" ++ agent) = none) :
    check_rate_limit agent kv0 t
      = { kv := ⟨"dev:ratelimit:" ++ agent, .i 1, some (t + 3600)⟩
              :: kvRemove kv0 ("dev:ratelimit:" ++ agent),
          count := 1, limited := false } := by
  unfold check_rate_limit
  simp only [kvIncr, habs]
  have h2 := kvExpire_eq_of_ne (kvRemove kv0 ("dev:ratelimit:" ++ agent)) t
    ("dev:ratelimit:" ++ agent) 3600 (kvRemove_key_ne kv0 _)
  simp only [kvExpire] at h2
  simp only [beq_self_eq_true, if_true, kvExpire, List.map_cons, h2]
  simp [entryLive]

theorem check_rate_limit_step (agent : String) (rest : KV) (t : Nat) (k : Int)
    (hk : 1 ≤ k)
    (hrest : ∀ e ∈ rest, e.key ≠ "dev:ratelimit:" ++ agent) :
    check_rate_limit agent
        (⟨"dev:ratelimit:" ++ agent, .i k, some (t + 3600)⟩ :: rest) t
      = { kv := ⟨"dev:ratelimit:" ++ agent, .i (k + 1), some (t + 3600)⟩ :: rest,
          count := k + 1, limited := decide (k + 1 > 100) } := by
  have hlive : entryLive t (⟨"dev:ratelimit:" ++ agent, .i k, some (t + 3600)⟩ : KVEntry)
      = true := by
    simp [entryLive]
  have hget : kvGet (⟨"dev:ratelimit:" ++ agent, .i k, some (t + 3600)⟩ :: rest) t
      ("dev:ratelimit:" ++ agent) = some (.i k) := by
    unfold kvGet
    rw [List.find?_cons]
    simp [hlive]
  unfold check_rate_limit
  simp only [kvIncr, hget, List.map_cons, beq_self_eq_true, if_true]
  rw [kvIncrMap_eq_of_ne rest _ _ hrest]
  have hne1 : (k + 1 == 1) = false := by
    have : ¬ (k + 1 = 1) := by omega
    simp [this]
  simp [hne1]

theorem check_rate_limit_run (agent : String) (rest : KV) (t : Nat)
    (hrest : ∀ e ∈ rest, e.key ≠ "dev:ratelimit:" ++ agent) :
    ∀ (n : Nat) (k : Int), 1 ≤ k →
      check_rate_limit_times agent
          (⟨"dev:ratelimit:" ++ agent, .i k, some (t + 3600)⟩ :: rest)
          (List.replicate n t)
        = ((List.range n).map (fun j : Nat => decide (k + 1 + (j : Int) > 100)),
           ⟨"dev:ratelimit:" ++ agent, .i (k + (n : Int)), some (t + 3600)⟩ :: rest) := by
  intro n
  induction n with
  | zero => intro k hk; simp [check_rate_limit_times]
  | succ n ih =>
      intro k hk
      rw [List.replicate_succ]
      simp only [check_rate_limit_times]
      rw [check_rate_limit_step agent rest t k hk hrest]
      rw [ih (k + 1) (by omega)]
      simp only [Prod.mk.injEq]
      constructor
      · rw [List.range_succ_eq_map, List.map_cons, List.map_map]
        simp only [List.cons.injEq]
        constructor
        · norm_num
        · apply List.map_congr_left
          intro j hj
          have harg : k + 1 + 1 + (j : Int) = k + 1 + ((j + 1 : Nat) : Int) := by
            push_cast
            ring
          simpa using congrArg (fun z => decide (z > 100)) harg
      · have harg : k + 1 + (n : Int) = k + ((n + 1 : Nat) : Int) := by
          push_cast
          ring
        rw [harg]

theorem check_rate_limit_times_cons (agent : String) (kv : KV) (t : Nat)
    (rest : List Nat) :
    check_rate_limit_times agent kv (t :: rest)
      = ((check_rate_limit agent kv t).limited
           :: (check_rate_limit_times agent (check_rate_limit agent kv t).kv rest).1,
         (check_rate_limit_times agent (check_rate_limit agent kv t).kv rest).2) := rfl

/-- C9: from a store with no live rate key for the agent, 101 checks
inside one window leave the first 100 unraised and raise exactly on the
101st (the first check creates the counter with a one-hour expiry); a
check at the end of the window finds the key expired, so its count is 1
and it does not raise; and in general a check raises exactly when the
post-increment count exceeds 100. -/
theorem c9_rate_limit (agent : String) (kv0 : KV) (t : Nat)
    (habs : kvGet kv0 t ("dev:ratelimit:" ++ agent) = none) :
    (check_rate_limit_times agent kv0 (List.replicate 101 t)).1
      = List.replicate 100 false ++ [true]
    ∧ (check_rate_limit agent (check_rate_limit_times agent kv0 (List.replicate 101 t)).2
        (t + 3600)).limited = false
    ∧ (check_rate_limit agent (check_rate_limit_times agent kv0 (List.replicate 101 t)).2
        (t + 3600)).count = 1
    ∧ ∀ (kv : KV) (now : Nat), (check_rate_limit agent kv now).limited
        = decide ((check_rate_limit agent kv now).count > 100) := by
  have hfull : check_rate_limit_times agent kv0 (List.replicate 101 t)
      = (false :: (List.range 100).map (fun j : Nat => decide ((1 : Int) + 1 + (j : Int) > 100)),
         ⟨"dev:ratelimit:" ++ agent, .i 101, some (t + 3600)⟩
           :: kvRemove kv0 ("dev:ratelimit:" ++ agent)) := by
    rw [show (101 : Nat) = 100 + 1 from rfl, List.replicate_succ]
    rw [check_rate_limit_times_cons, check_rate_limit_first agent kv0 t habs]
    dsimp only
    rw [check_rate_limit_run agent (kvRemove kv0 ("dev:ratelimit:" ++ agent)) t
      (kvRemove_key_ne kv0 _) 100 1 (by norm_num)]
    rw [show ((1 : Int) + ((100 : Nat) : Int)) = 101 by norm_num]
  have hgone : kvGet (⟨"dev:ratelimit:" ++ agent, .i 101, some (t + 3600)⟩
        :: kvRemove kv0 ("dev:ratelimit:" ++ agent)) (t + 3600)
        ("dev:ratelimit:" ++ agent) = none := by
    unfold kvGet
    rw [List.find?_cons]
    have hl : entryLive (t + 3600)
        (⟨"dev:ratelimit:" ++ agent, .i 101, some (t + 3600)⟩ : KVEntry) = false := by
      simp [entryLive]
    rw [hl]
    simp only [Bool.and_false]
    rw [List.find?_eq_none.mpr]
    intro e he
    simp [kvRemove_key_ne kv0 _ e he]
  refine ⟨?_, ?_, ?_, ?_⟩
  · rw [hfull]
    dsimp only
    decide
  · rw [hfull]
    dsimp only
    rw [check_rate_limit_first agent _ (t + 3600) hgone]
  · rw [hfull]
    dsimp only
    rw [check_rate_limit_first agent _ (t + 3600) hgone]
  · intro kv now
    rfl

/-- C9 (witness): from the empty store at time 0, the 101 checks of agent
a produce 100 successes then one raise, and a check at the end of the
window does not raise. -/
theorem c9_witness :
    (check_rate_limit_times "a" [] (List.replicate 101 0)).1
      = List.replicate 100 false ++ [true]
    ∧ (check_rate_limit "a" (check_rate_limit_times "a" [] (List.replicate 101 0)).2
        3600).limited = false := by
  have h := c9_rate_limit "a" [] 0 rfl
  exact ⟨h.1, h.2.1⟩

theorem string_append_ne_of_getElem (p q a b : String) (i : Nat)
    (hp : i < p.data.length) (hq : i < q.data.length)
    (h : p.data[i]? ≠ q.data[i]?) : (p ++ a) ≠ (q ++ b) := by
  intro he
  have hd := congrArg String.data he
  rw [String.data_append, String.data_append] at hd
  have h1 : (p.data ++ a.data)[i]? = p.data[i]? := by
    rw [List.getElem?_append, if_pos hp]
  have h2 : (q.data ++ b.data)[i]? = q.data[i]? := by
    rw [List.getElem?_append, if_pos hq]
  rw [hd, h2] at h1
  exact h h1.symm

theorem lock_key_ne_dedup_key (a b : String) :
    ("dev:locks:task:" ++ a) ≠ ("dev:dedup:" ++ b) := by
  apply string_append_ne_of_getElem _ _ _ _ 4 (by decide) (by decide)
  decide

theorem kvSetNX_absent (kv : KV) (now : Nat) (k : String) (v : JVal) (ttl : Nat)
    (h : kvGet kv now k = none) :
    kvSetNX kv now k v ttl = (true, ⟨k, v, some (now + ttl)⟩ :: kvRemove kv k) := by
  unfold kvSetNX
  rw [h]

theorem kvSetNX_present (kv : KV) (now : Nat) (k : String) (v w : JVal) (ttl : Nat)
    (h : kvGet kv now k = some w) :
    kvSetNX kv now k v ttl = (false, kv) := by
  unfold kvSetNX
  rw [h]

theorem kvGet_cons_ne (e : KVEntry) (kv : KV) (now : Nat) (k : String) (h : e.key ≠ k) :
    kvGet (e :: kv) now k = kvGet kv now k := by
  unfold kvGet
  rw [List.find?_cons]
  have hb : (e.key == k) = false := by simp [h]
  simp [hb]

theorem kvRemove_cons_ne (e : KVEntry) (kv : KV) (k : String) (h : e.key ≠ k) :
    kvRemove (e :: kv) k = e :: kvRemove kv k := by
  simp [kvRemove, h]

theorem kvGet_kvRemove_ne (kv : KV) (now : Nat) (k k2 : String) (h : k2 ≠ k) :
    kvGet (kvRemove kv k) now k2 = kvGet kv now k2 := by
  induction kv with
  | nil => rfl
  | cons e rest ih =>
      by_cases hek : e.key = k
      · have hek2 : e.key ≠ k2 := by
          rw [hek]
          exact fun hh => h hh.symm
        have hrem : kvRemove (e :: rest) k = kvRemove rest k := by
          simp [kvRemove, hek]
        rw [hrem, ih, kvGet_cons_ne e rest now k2 hek2]
      · rw [kvRemove_cons_ne e rest k hek]
        unfold kvGet
        rw [List.find?_cons, List.find?_cons]
        by_cases hc : (e.key == k2 && entryLive now e) = true
        · rw [hc]
        · rw [Bool.not_eq_true] at hc
          rw [hc]
          exact ih

theorem claim_task_wins (agent taskId : String) (duration : Nat) (br0 : Broker)
    (t1 nowMs : Nat) (nowIso : String)
    (hlock : kvGet br0.kv t1 ("dev:locks:task:" ++ taskId) = none)
    (hded : kvGet br0.kv t1 (taskClaimedDedupKey agent taskId nowIso nowMs) = none) :
    claim_task agent taskId duration br0 t1 nowMs nowIso
      = { broker :=
            { kv := ⟨taskClaimedDedupKey agent taskId nowIso nowMs, .s "1", some (t1 + 60)⟩
                :: ⟨"dev:locks:task:" ++ taskId, .obj (lockRecord agent nowIso duration),
                     some (t1 + duration)⟩
                :: kvRemove (kvRemove br0.kv ("dev:locks:task:" ++ taskId))
                     (taskClaimedDedupKey agent taskId nowIso nowMs),
              streams := xadd br0.streams "dev:channels:general"
                (setField (taskClaimedMsg agent taskId nowIso nowMs) "hash"
                  (.s (hashDigest (dumpsSortedMsg (taskClaimedMsg agent taskId nowIso nowMs))))) },
          acquired := true, reportedOwner := none } := by
  have hlockentry :
      (⟨"dev:locks:task:" ++ taskId, .obj (lockRecord agent nowIso duration),
        some (t1 + duration)⟩ : KVEntry).key
        ≠ taskClaimedDedupKey agent taskId nowIso nowMs :=
    lock_key_ne_dedup_key taskId _
  have hded2 : kvGet
      (⟨"dev:locks:task:" ++ taskId, .obj (lockRecord agent nowIso duration),
        some (t1 + duration)⟩ :: kvRemove br0.kv ("dev:locks:task:" ++ taskId)) t1
      (taskClaimedDedupKey agent taskId nowIso nowMs) = none := by
    rw [kvGet_cons_ne _ _ _ _ hlockentry,
        kvGet_kvRemove_ne _ _ _ _ (fun hh => hlockentry hh.symm)]
    exact hded
  unfold taskClaimedDedupKey taskClaimedMsg at hlockentry hded2 ⊢
  unfold claim_task
  dsimp only
  rw [kvSetNX_absent _ _ _ _ _ hlock]
  dsimp only
  unfold send_broadcast send_message_shared
  dsimp only
  rw [kvSetNX_absent _ _ _ _ _ hded2]
  dsimp only
  rw [kvRemove_cons_ne _ _ _ hlockentry]
  rfl

theorem claim_task_loses (agent taskId : String) (duration : Nat) (br : Broker)
    (t nowMs : Nat) (nowIso : String) (rec : Msg)
    (hget : kvGet br.kv t ("dev:locks:task:" ++ taskId) = some (.obj rec)) :
    claim_task agent taskId duration br t nowMs nowIso
      = { broker := br, acquired := false,
          reportedOwner := match getField rec "owner" with
                           | some (.s o) => some o
                           | _ => none } := by
  unfold claim_task
  dsimp only
  rw [kvSetNX_present _ _ _ _ _ _ hget]
  dsimp only
  rw [hget]
  rfl

/-- C3: two distinct owners claim the same task while no lock record for
it exists: the first invocation returns true, creating the sole lock
record (owner, acquisition time, duration, expiring after the duration)
and broadcasting a task_claimed event to the general channel; the second
invocation, inside the duration of the first, returns false and reports
the owner read from the existing record; and the final store holds
exactly one record under the lock key. -/
theorem c3_claim_task_mutex (ownerA ownerB taskId : String) (duration : Nat)
    (br0 : Broker) (t1 t2 nowMs1 nowMs2 : Nat) (nowIso1 nowIso2 : String)
    (howners : ownerA ≠ ownerB) (ht : t2 < t1 + duration)
    (hlock : kvGet br0.kv t1 ("dev:locks:task:" ++ taskId) = none)
    (hded : kvGet br0.kv t1 (taskClaimedDedupKey ownerA taskId nowIso1 nowMs1) = none) :
    (claim_task ownerA taskId duration br0 t1 nowMs1 nowIso1).acquired = true
    ∧ (claim_task ownerB taskId duration
        (claim_task ownerA taskId duration br0 t1 nowMs1 nowIso1).broker
        t2 nowMs2 nowIso2).acquired = false
    ∧ (claim_task ownerB taskId duration
        (claim_task ownerA taskId duration br0 t1 nowMs1 nowIso1).broker
        t2 nowMs2 nowIso2).reportedOwner = some ownerA
    ∧ kvGet (claim_task ownerB taskId duration
        (claim_task ownerA taskId duration br0 t1 nowMs1 nowIso1).broker
        t2 nowMs2 nowIso2).broker.kv t2 ("dev:locks:task:" ++ taskId)
      = some (.obj (lockRecord ownerA nowIso1 duration))
    ∧ kvCountKey (claim_task ownerB taskId duration
        (claim_task ownerA taskId duration br0 t1 nowMs1 nowIso1).broker
        t2 nowMs2 nowIso2).broker.kv ("dev:locks:task:" ++ taskId) = 1
    ∧ streamOf (claim_task ownerA taskId duration br0 t1 nowMs1 nowIso1).broker.streams
        "dev:channels:general"
      = streamOf br0.streams "dev:channels:general"
        ++ [setField (taskClaimedMsg ownerA taskId nowIso1 nowMs1) "hash"
             (.s (hashDigest (dumpsSortedMsg (taskClaimedMsg ownerA taskId nowIso1 nowMs1))))]
    ∧ getField (setField (taskClaimedMsg ownerA taskId nowIso1 nowMs1) "hash"
          (.s (hashDigest (dumpsSortedMsg (taskClaimedMsg ownerA taskId nowIso1 nowMs1))))) "type"
      = some (.s "task_claimed") := by
  have hwin := claim_task_wins ownerA taskId duration br0 t1 nowMs1 nowIso1 hlock hded
  have hdne : taskClaimedDedupKey ownerA taskId nowIso1 nowMs1 ≠ "dev:locks:task:" ++ taskId :=
    Ne.symm (lock_key_ne_dedup_key taskId _)
  have hlive : entryLive t2
      (⟨"dev:locks:task:" ++ taskId, .obj (lockRecord ownerA nowIso1 duration),
        some (t1 + duration)⟩ : KVEntry) = true := by
    simp [entryLive, ht]
  have hget2 : kvGet
      (⟨taskClaimedDedupKey ownerA taskId nowIso1 nowMs1, .s "1", some (t1 + 60)⟩
        :: ⟨"dev:locks:task:" ++ taskId, .obj (lockRecord ownerA nowIso1 duration),
             some (t1 + duration)⟩
        :: kvRemove (kvRemove br0.kv ("dev:locks:task:" ++ taskId))
             (taskClaimedDedupKey ownerA taskId nowIso1 nowMs1))
      t2 ("dev:locks:task:" ++ taskId)
      = some (.obj (lockRecord ownerA nowIso1 duration)) := by
    rw [kvGet_cons_ne _ _ _ _ hdne]
    unfold kvGet
    rw [List.find?_cons]
    simp [hlive]
  have hlose := claim_task_loses ownerB taskId duration
    (claim_task ownerA taskId duration br0 t1 nowMs1 nowIso1).broker t2 nowMs2 nowIso2
    (lockRecord ownerA nowIso1 duration) (by rw [hwin]; exact hget2)
  have hrest0 : (kvRemove (kvRemove br0.kv ("dev:locks:task:" ++ taskId))
      (taskClaimedDedupKey ownerA taskId nowIso1 nowMs1)).countP
      (fun e => e.key == "dev:locks:task:" ++ taskId) = 0 := by
    apply List.countP_eq_zero.mpr
    intro e he
    have he2 : e ∈ kvRemove br0.kv ("dev:locks:task:" ++ taskId) :=
      List.mem_of_mem_filter he
    have hne := kvRemove_key_ne br0.kv _ e he2
    simp [hne]
  refine ⟨?_, ?_, ?_, ?_, ?_, ?_, ?_⟩
  · rw [hwin]
  · rw [hlose]
  · rw [hlose]
    rfl
  · rw [hlose]
    rw [hwin]
    exact hget2
  · rw [hlose, hwin]
    unfold kvCountKey
    dsimp only
    rw [List.countP_cons, List.countP_cons, hrest0]
    simp [hdne]
  · rw [hwin]
    exact streamOf_xadd_self _ _ _
  · simp only [taskClaimedMsg, updateFields, getField_setField]
    rfl

/-- C3 (witness): claude and gemini claim task T1 for 300 seconds on an
empty broker, gemini one second after claude: claude wins, gemini is
refused and is told the owner is claude. -/
theorem c3_witness :
    (claim_task "claude" "T1" 300 ⟨[], []⟩ 0 10 "I1").acquired = true
    ∧ (claim_task "gemini" "T1" 300
        (claim_task "claude" "T1" 300 ⟨[], []⟩ 0 10 "I1").broker 1 20 "I2").acquired = false
    ∧ (claim_task "gemini" "T1" 300
        (claim_task "claude" "T1" 300 ⟨[], []⟩ 0 10 "I1").broker 1 20 "I2").reportedOwner
      = some "claude" := by
  have h := c3_claim_task_mutex "claude" "gemini" "T1" 300 ⟨[], []⟩ 0 1 10 20 "I1" "I2"
    (by decide) (by decide) rfl rfl
  exact ⟨h.1, h.2.1, h.2.2.1⟩

/-- C8 (counterexample): a batch of two distinct entries carrying the
same message content.  The listener of the source delivers both to the
handler; the claimed behaviour (Dedup Gate applied per entry) would
suppress the second.  The claim fails at this input. -/
theorem c8_counterexample :
    listen_process_batch none
        [(1, [("sender", JVal.s "a"), ("body", JVal.s "x")]),
         (2, [("sender", JVal.s "a"), ("body", JVal.s "x")])] 0
      = ([[("sender", JVal.s "a"), ("body", JVal.s "x")],
          [("sender", JVal.s "a"), ("body", JVal.s "x")]], 2)
    ∧ listen_process_batch_claim none []
        [(1, [("sender", JVal.s "a"), ("body", JVal.s "x")]),
         (2, [("sender", JVal.s "a"), ("body", JVal.s "x")])] 0
      = ([[("sender", JVal.s "a"), ("body", JVal.s "x")]], 2) := by
  exact ⟨rfl, rfl⟩

theorem getLastD_cons (a d : Nat) (l : List Nat) :
    ((a :: l).getLast?).getD d = (l.getLast?).getD a := by
  cases l with
  | nil => rfl
  | cons b t =>
      rw [List.getLast?_cons_cons]
      cases hx : (b :: t).getLast? with
      | none => exact absurd hx (by simp)
      | some x => rfl

/-- C8 (amended): in direct mode the listener decodes each entry of a
batch, applies the optional sender filter only (no dedup gate), invokes
the caller-supplied handler exactly once per passing entry — duplicated
content included — and advances the cursor to the id of the last
delivered entry (the initial cursor when nothing passes). -/
theorem c8_listen_batch (filt : Option String) (batch : List BusEntry) (last0 : Nat) :
    (listen_process_batch filt batch last0).1
      = (batch.filter (fun e => passes_filter filt e.2)).map Prod.snd
    ∧ (listen_process_batch filt batch last0).2
      = (((batch.filter (fun e => passes_filter filt e.2)).map Prod.fst).getLast?).getD last0 := by
  induction batch generalizing last0 with
  | nil => exact ⟨rfl, rfl⟩
  | cons e rest ih =>
      obtain ⟨entryId, m⟩ := e
      by_cases hp : passes_filter filt m = true
      · have h1 := (ih entryId).1
        have h2 := (ih entryId).2
        constructor
        · simp only [listen_process_batch, hp, if_true, List.filter_cons, List.map_cons, h1]
        · simp only [listen_process_batch, hp, if_true, List.filter_cons, List.map_cons, h2]
          rw [getLastD_cons]
      · rw [Bool.not_eq_true] at hp
        have h1 := (ih last0).1
        have h2 := (ih last0).2
        constructor
        · simp only [listen_process_batch, hp, Bool.false_eq_true, if_false, List.filter_cons,
            h1]
        · simp only [listen_process_batch, hp, Bool.false_eq_true, if_false, List.filter_cons,
            h2]

theorem replyFor_action (consumer : String) (nowMs : Nat) (nowIso : String) (data : Msg) :
    getField (replyFor consumer nowMs nowIso data) "action"
      = some (.s (specReplyAction (actionStrOf data))) := by
  unfold replyFor actionStrOf
  rcases hv : getField data "action" with _ | v
  · rfl
  · cases v with
    | s str =>
        dsimp only [Option.getD, jvalIsStr, specReplyAction]
        by_cases h1 : str == "hello_world"
        · simp only [h1, if_true]
          rfl
        · rw [Bool.not_eq_true] at h1
          simp only [h1, Bool.false_eq_true, if_false]
          by_cases h2 : str == "lock_shell"
          · simp only [h2, if_true]
            rfl
          · rw [Bool.not_eq_true] at h2
            simp only [h2, Bool.false_eq_true, if_false]
            by_cases h3 : str == "unlock_shell"
            · simp only [h3, if_true]
              rfl
            · rw [Bool.not_eq_true] at h3
              simp only [h3, Bool.false_eq_true, if_false]
              rfl
    | i n => rfl
    | b v2 => rfl
    | null => rfl
    | obj l => rfl

theorem replier_batch_length (consumer : String) (nowMs : Nat) (nowIso : String)
    (batch : List BusEntry) :
    (replier_process_batch consumer nowMs nowIso batch).length = 2 * batch.length := by
  induction batch with
  | nil => rfl
  | cons e rest ih =>
      simp only [replier_process_batch, List.length_cons, ih]
      omega

theorem replier_ackcount_zero (consumer : String) (nowMs : Nat) (nowIso : String)
    (batch : List BusEntry) (k : Nat) (hk : k ∉ batch.map Prod.fst) :
    (replier_process_batch consumer nowMs nowIso batch).countP (isAckOf k) = 0 := by
  induction batch with
  | nil => rfl
  | cons e rest ih =>
      simp only [List.map_cons, List.mem_cons, not_or] at hk
      have hne : (e.1 == k) = false := by
        simp
        exact fun hh => hk.1 hh.symm
      simp only [replier_process_batch, List.countP_cons, isAckOf, hne]
      simp [ih hk.2]

theorem replier_batch_get (consumer : String) (nowMs : Nat) (nowIso : String)
    (batch : List BusEntry) :
    ∀ (i : Nat) (e : BusEntry), batch[i]? = some e →
      (replier_process_batch consumer nowMs nowIso batch)[2 * i]?
        = some (.sent (replyFor consumer nowMs nowIso e.2))
      ∧ (replier_process_batch consumer nowMs nowIso batch)[2 * i + 1]?
        = some (.acked e.1) := by
  induction batch with
  | nil =>
      intro i e h
      simp at h
  | cons e0 rest ih =>
      intro i e h
      cases i with
      | zero =>
          rw [List.getElem?_cons_zero] at h
          cases h
          constructor
          · rw [show (2 * 0 : Nat) = 0 from rfl]
            simp [replier_process_batch]
          · rw [show (2 * 0 + 1 : Nat) = 1 from rfl]
            simp [replier_process_batch]
      | succ j =>
          rw [List.getElem?_cons_succ] at h
          have hrec := ih j e h
          constructor
          · rw [show 2 * (j + 1) = 2 * j + 1 + 1 by ring]
            simp only [replier_process_batch, List.getElem?_cons_succ]
            exact hrec.1
          · rw [show 2 * (j + 1) + 1 = (2 * j + 1) + 1 + 1 by ring]
            simp only [replier_process_batch, List.getElem?_cons_succ]
            exact hrec.2

/-- C7: in consumer-group mode, for every batch of claimed entries (their
ids distinct, as the broker guarantees), the replier emits exactly two
events per entry in order — first exactly one reply whose action is the
one of the dispatch table for the entry action (the unhandled-action
acknowledgment when no handler matches), then the acknowledgment of that
entry — and every entry is acknowledged exactly once, after its reply. -/
theorem c7_replier_reply_then_ack (consumer : String) (nowMs : Nat) (nowIso : String)
    (batch : List BusEntry) (hids : (batch.map Prod.fst).Nodup) :
    (replier_process_batch consumer nowMs nowIso batch).length = 2 * batch.length
    ∧ (∀ e ∈ batch,
        (replier_process_batch consumer nowMs nowIso batch).countP (isAckOf e.1) = 1)
    ∧ (∀ (i : Nat) (e : BusEntry), batch[i]? = some e →
        (replier_process_batch consumer nowMs nowIso batch)[2 * i]?
          = some (.sent (replyFor consumer nowMs nowIso e.2))
        ∧ (replier_process_batch consumer nowMs nowIso batch)[2 * i + 1]?
          = some (.acked e.1)
        ∧ getField (replyFor consumer nowMs nowIso e.2) "action"
          = some (.s (specReplyAction (actionStrOf e.2)))) := by
  refine ⟨replier_batch_length _ _ _ _, ?_, ?_⟩
  · intro e he
    induction batch with
    | nil => simp at he
    | cons e0 rest ih =>
        simp only [List.map_cons, List.nodup_cons] at hids
        rcases List.mem_cons.mp he with he0 | hem
        · subst he0
          simp only [replier_process_batch, List.countP_cons, isAckOf, beq_self_eq_true]
          rw [replier_ackcount_zero consumer nowMs nowIso rest e.1 hids.1]
          simp
        · have hne : (e0.1 == e.1) = false := by
            simp only [beq_eq_false_iff_ne, ne_eq]
            intro hh
            exact hids.1 (hh ▸ List.mem_map_of_mem Prod.fst hem)
          simp only [replier_process_batch, List.countP_cons, isAckOf, hne]
          simp [ih hids.2 hem]
  · intro i e h
    exact ⟨(replier_batch_get consumer nowMs nowIso batch i e h).1,
           (replier_batch_get consumer nowMs nowIso batch i e h).2,
           replyFor_action consumer nowMs nowIso e.2⟩

/-- C7 (witness): one claimed entry with action ping (no handler): the
replier acknowledges entry 5 exactly once and its reply is the
unhandled-action acknowledgment. -/
theorem c7_witness :
    (replier_process_batch "replier" 3 "I"
        [(5, [("sender", JVal.s "bob"), ("action", JVal.s "ping"),
              ("payload", JVal.obj [])])]).countP (isAckOf 5) = 1
    ∧ getField (replyFor "replier" 3 "I"
        [("sender", JVal.s "bob"), ("action", JVal.s "ping"), ("payload", JVal.obj [])])
        "action"
      = some (.s "unhandled_action") := by
  have h := c7_replier_reply_then_ack "replier" 3 "I"
    [(5, [("sender", JVal.s "bob"), ("action", JVal.s "ping"), ("payload", JVal.obj [])])]
    (by simp)
  refine ⟨h.2.1 (5, [("sender", JVal.s "bob"), ("action", JVal.s "ping"),
    ("payload", JVal.obj [])]) (by simp), ?_⟩
  have h3 := (h.2.2 0 (5, [("sender", JVal.s "bob"), ("action", JVal.s "ping"),
    ("payload", JVal.obj [])]) (by simp)).2.2
  exact h3.trans (by rfl)

theorem scanBatch_fst (cid : String) (l : List BusEntry) :
    ∀ last, (scanBatch cid l last).1 = l.find? (fun e => isResponseFor cid e.2) := by
  induction l with
  | nil => intro last; rfl
  | cons e rest ih =>
      intro last
      have hstep : scanBatch cid (e :: rest) last
          = if isResponseFor cid e.2 = true then (some e, e.1)
            else scanBatch cid rest e.1 := rfl
      rw [hstep, List.find?_cons]
      by_cases h : isResponseFor cid e.2 = true
      · simp [h]
      · rw [Bool.not_eq_true] at h
        simp [h, ih]

theorem scanBatch_snd_nomatch (cid : String) (l : List BusEntry) :
    ∀ (last : Nat) (h : l ≠ []),
      l.find? (fun e => isResponseFor cid e.2) = none →
      (scanBatch cid l last).2 = (l.getLast h).1 := by
  induction l with
  | nil => intro last h; exact absurd rfl h
  | cons e rest ih =>
      intro last h hnone
      rw [List.find?_cons] at hnone
      have hpe : isResponseFor cid e.2 = false := by
        by_contra hc
        rw [Bool.not_eq_false] at hc
        rw [hc] at hnone
        exact Option.noConfusion hnone
      rw [hpe] at hnone
      dsimp only at hnone
      have hstep : scanBatch cid (e :: rest) last
          = if isResponseFor cid e.2 = true then (some e, e.1)
            else scanBatch cid rest e.1 := rfl
      rw [hstep, if_neg (by simp [hpe])]
      cases rest with
      | nil => simp [scanBatch]
      | cons f t =>
          rw [ih e.1 (by simp) hnone]
          conv_rhs => rw [List.getLast_cons (show f :: t ≠ [] from by simp)]

theorem sorted_fst_le_getLast (l : List BusEntry) :
    ∀ (h : l ≠ []), l.Pairwise (fun a b => a.1 < b.1) →
      ∀ x ∈ l, x.1 ≤ (l.getLast h).1 := by
  induction l with
  | nil => intro h; exact absurd rfl h
  | cons e rest ih =>
      intro h hp x hx
      cases rest with
      | nil =>
          have hxe : x = e := by simpa using hx
          subst hxe
          exact Nat.le_refl _
      | cons f t =>
          rw [List.getLast_cons (by simp)]
          rcases List.mem_cons.mp hx with hx0 | hxr
          · subst hx0
            have hall := (List.pairwise_cons.mp hp).1
            exact Nat.le_of_lt (hall _ (List.getLast_mem (by simp)))
          · exact ih (by simp) (List.pairwise_cons.mp hp).2 x hxr

theorem filter_gt_getLast_take (entries : List BusEntry) (cursor : Nat)
    (hs : entries.Pairwise (fun a b => a.1 < b.1))
    (hne : ((entries.filter (fun e => cursor < e.1)).take 10) ≠ []) :
    entries.filter (fun e =>
        ((((entries.filter (fun e2 => cursor < e2.1)).take 10).getLast hne)).1 < e.1)
      = (entries.filter (fun e => cursor < e.1)).drop 10 := by
  have hremsorted : (entries.filter (fun e => cursor < e.1)).Pairwise
      (fun a b => a.1 < b.1) := hs.filter _
  have hlastrem : ((entries.filter (fun e => cursor < e.1)).take 10).getLast hne
      ∈ entries.filter (fun e => cursor < e.1) :=
    List.mem_of_mem_take (List.getLast_mem hne)
  have hcc2 : cursor
      < ((((entries.filter (fun e2 => cursor < e2.1)).take 10).getLast hne)).1 := by
    have h2 := (List.mem_filter.mp hlastrem).2
    simpa using h2
  have htake_le : ∀ a ∈ (entries.filter (fun e => cursor < e.1)).take 10,
      a.1 ≤ ((((entries.filter (fun e2 => cursor < e2.1)).take 10).getLast hne)).1 :=
    sorted_fst_le_getLast _ hne (hremsorted.sublist (List.take_sublist _ _))
  have hcrosslast : ∀ b ∈ (entries.filter (fun e => cursor < e.1)).drop 10,
      ((((entries.filter (fun e2 => cursor < e2.1)).take 10).getLast hne)).1 < b.1 := by
    intro b hb2
    have htd := List.take_append_drop 10 (entries.filter (fun e => cursor < e.1))
    have hpairs := htd ▸ hremsorted
    exact (List.pairwise_append.mp hpairs).2.2 _ (List.getLast_mem hne) b hb2
  generalize hg : ((((entries.filter (fun e2 => cursor < e2.1)).take 10).getLast hne)).1 = c2
  rw [hg] at hcc2 htake_le hcrosslast
  have hb : entries.filter (fun e => c2 < e.1)
      = (entries.filter (fun e => cursor < e.1)).filter (fun e => c2 < e.1) := by
    rw [List.filter_filter]
    apply List.filter_congr
    intro a ha
    by_cases hca : c2 < a.1
    · simp [hca, Nat.lt_trans hcc2 hca]
    · simp [hca]
  rw [hb]
  have htd := List.take_append_drop 10 (entries.filter (fun e => cursor < e.1))
  conv_lhs => rw [← htd]
  rw [List.filter_append]
  have h1 : ((entries.filter (fun e => cursor < e.1)).take 10).filter
      (fun e => c2 < e.1) = [] := by
    rw [List.filter_eq_nil_iff]
    intro a ha
    simp [Nat.not_lt.mpr (htake_le a ha)]
  have h2 : ((entries.filter (fun e => cursor < e.1)).drop 10).filter
      (fun e => c2 < e.1)
      = (entries.filter (fun e => cursor < e.1)).drop 10 := by
    rw [List.filter_eq_self]
    intro b hb2
    simp [hcrosslast b hb2]
  rw [h1, h2, List.nil_append]

theorem list_getLast_congr (l1 l2 : List BusEntry) (h1 : l1 ≠ []) (h2 : l2 ≠ [])
    (heq : l1 = l2) : l1.getLast h1 = l2.getLast h2 := by
  subst heq
  rfl

theorem wfr_finds (entries : List BusEntry) (cid : String) (timeout : Nat)
    (hs : entries.Pairwise (fun a b => a.1 < b.1)) (r : BusEntry) :
    ∀ (fuel cursor elapsed : Nat), elapsed ≤ timeout →
      (entries.filter (fun e => cursor < e.1)).find? (fun e => isResponseFor cid e.2)
        = some r →
      (entries.filter (fun e => cursor < e.1)).length < fuel →
      wait_for_response fuel entries cid timeout cursor elapsed = (some r, elapsed) := by
  intro fuel
  induction fuel with
  | zero => intro cursor elapsed h1 h2 h3; omega
  | succ fuel ih =>
      intro cursor elapsed h1 h2 h3
      have hunf : wait_for_response (fuel + 1) entries cid timeout cursor elapsed
          = if timeout < elapsed then (none, elapsed)
            else match readBatch entries cursor 10 with
              | [] => wait_for_response fuel entries cid timeout cursor (elapsed + 1)
              | e :: bs =>
                match scanBatch cid (e :: bs) cursor with
                | (some r2, _) => (some r2, elapsed)
                | (none, last) => wait_for_response fuel entries cid timeout last elapsed := rfl
      rw [hunf, if_neg (Nat.not_lt.mpr h1)]
      cases hbatch : readBatch entries cursor 10 with
      | nil =>
          exfalso
          have hbr := hbatch
          unfold readBatch at hbr
          have hremnil : entries.filter (fun e => cursor < e.1) = [] := by
            rcases List.take_eq_nil_iff.mp hbr with h10 | hnil
            · exact absurd h10 (by norm_num)
            · exact hnil
          rw [hremnil] at h2
          exact Option.noConfusion h2
      | cons e bs =>
          dsimp only
          have hbr := hbatch
          unfold readBatch at hbr
          have htd := List.take_append_drop 10 (entries.filter (fun e => cursor < e.1))
          have hsplit : entries.filter (fun e => cursor < e.1)
              = (e :: bs) ++ (entries.filter (fun e => cursor < e.1)).drop 10 := by
            rw [← hbr, htd]
          rcases hscan : scanBatch cid (e :: bs) cursor with ⟨o, last⟩
          have ho := scanBatch_fst cid (e :: bs) cursor
          rw [hscan] at ho
          cases o with
          | some r0 =>
              dsimp only
              have hfrem : (entries.filter (fun e => cursor < e.1)).find?
                  (fun e => isResponseFor cid e.2) = some r0 := by
                rw [hsplit, List.find?_append, ← ho]
                rfl
              rw [hfrem] at h2
              cases h2
              rfl
          | none =>
              dsimp only
              have hfindbatch : (e :: bs).find? (fun e => isResponseFor cid e.2) = none :=
                ho.symm
              have hfinddrop : ((entries.filter (fun e => cursor < e.1)).drop 10).find?
                  (fun e => isResponseFor cid e.2) = some r := by
                rw [hsplit, List.find?_append, hfindbatch] at h2
                simpa using h2
              have hlast := scanBatch_snd_nomatch cid (e :: bs) cursor (by simp) hfindbatch
              rw [hscan] at hlast
              have hne : ((entries.filter (fun e2 => cursor < e2.1)).take 10) ≠ [] := by
                rw [hbr]
                simp
              have hlasteq : (((entries.filter (fun e2 => cursor < e2.1)).take 10).getLast
                  hne).1 = last := by
                rw [list_getLast_congr _ (e :: bs) hne (by simp) hbr]
                exact hlast.symm
              have hremnew : entries.filter (fun e2 => last < e2.1)
                  = (entries.filter (fun e2 => cursor < e2.1)).drop 10 := by
                rw [← hlasteq]
                exact filter_gt_getLast_take entries cursor hs hne
              apply ih last elapsed h1
              · rw [hremnew]
                exact hfinddrop
              · rw [hremnew, List.length_drop]
                have hlen1 : 1 ≤ (entries.filter (fun e => cursor < e.1)).length := by
                  rw [hsplit]
                  simp
                omega

theorem wfr_timeout (entries : List BusEntry) (cid : String) (timeout : Nat)
    (hs : entries.Pairwise (fun a b => a.1 < b.1)) :
    ∀ (fuel cursor elapsed : Nat), elapsed ≤ timeout + 1 →
      (entries.filter (fun e => cursor < e.1)).find? (fun e => isResponseFor cid e.2)
        = none →
      (entries.filter (fun e => cursor < e.1)).length + (timeout + 1 - elapsed) < fuel →
      (wait_for_response fuel entries cid timeout cursor elapsed).1 = none
      ∧ (wait_for_response fuel entries cid timeout cursor elapsed).2 ≤ timeout + 1 := by
  intro fuel
  induction fuel with
  | zero => intro cursor elapsed h1 h2 h3; omega
  | succ fuel ih =>
      intro cursor elapsed h1 h2 h3
      have hunf : wait_for_response (fuel + 1) entries cid timeout cursor elapsed
          = if timeout < elapsed then (none, elapsed)
            else match readBatch entries cursor 10 with
              | [] => wait_for_response fuel entries cid timeout cursor (elapsed + 1)
              | e :: bs =>
                match scanBatch cid (e :: bs) cursor with
                | (some r2, _) => (some r2, elapsed)
                | (none, last) => wait_for_response fuel entries cid timeout last elapsed := rfl
      by_cases hto : timeout < elapsed
      · rw [hunf, if_pos hto]
        exact ⟨rfl, h1⟩
      · rw [hunf, if_neg hto]
        have h1b : elapsed ≤ timeout := Nat.not_lt.mp hto
        cases hbatch : readBatch entries cursor 10 with
        | nil =>
            dsimp only
            apply ih cursor (elapsed + 1) (by omega) h2
            omega
        | cons e bs =>
            dsimp only
            have hbr := hbatch
            unfold readBatch at hbr
            have htd := List.take_append_drop 10 (entries.filter (fun e => cursor < e.1))
            have hsplit : entries.filter (fun e => cursor < e.1)
                = (e :: bs) ++ (entries.filter (fun e => cursor < e.1)).drop 10 := by
              rw [← hbr, htd]
            rcases hscan : scanBatch cid (e :: bs) cursor with ⟨o, last⟩
            have ho := scanBatch_fst cid (e :: bs) cursor
            rw [hscan] at ho
            have hboth : (e :: bs).find? (fun e => isResponseFor cid e.2) = none
                ∧ ((entries.filter (fun e => cursor < e.1)).drop 10).find?
                    (fun e => isResponseFor cid e.2) = none := by
              rw [hsplit, List.find?_append] at h2
              cases hfb : (e :: bs).find? (fun e => isResponseFor cid e.2) with
              | none =>
                  rw [hfb] at h2
                  exact ⟨rfl, by simpa using h2⟩
              | some x =>
                  rw [hfb] at h2
                  exact Option.noConfusion h2
            cases o with
            | some r0 =>
                exfalso
                rw [← ho] at hboth
                exact Option.noConfusion hboth.1
            | none =>
                dsimp only
                have hlast := scanBatch_snd_nomatch cid (e :: bs) cursor (by simp) hboth.1
                rw [hscan] at hlast
                have hne : ((entries.filter (fun e2 => cursor < e2.1)).take 10) ≠ [] := by
                  rw [hbr]
                  simp
                have hlasteq : (((entries.filter
                    (fun e2 => cursor < e2.1)).take 10).getLast hne).1 = last := by
                  rw [list_getLast_congr _ (e :: bs) hne (by simp) hbr]
                  exact hlast.symm
                have hremnew : entries.filter (fun e2 => last < e2.1)
                    = (entries.filter (fun e2 => cursor < e2.1)).drop 10 := by
                  rw [← hlasteq]
                  exact filter_gt_getLast_take entries cursor hs hne
                apply ih last elapsed h1
                · rw [hremnew]
                  exact hboth.2
                · rw [hremnew, List.length_drop]
                  have hlen1 : 1 ≤ (entries.filter (fun e => cursor < e.1)).length := by
                    rw [hsplit]
                    simp
                  omega

/-- C4: over a stream with increasing positive entry ids, the correlator
loop (blocking reads of up to 10 entries from a forward-advancing cursor,
one second per empty blocking read) returns the first entry whose
message_type is response or direct and whose correlation_id equals the
generated correlation id, and when no such entry exists it returns none —
the model is a total function, never an exception — at an elapsed time of
at most timeout plus one blocking interval. -/
theorem c4_wait_for_response (entries : List BusEntry) (sender : String)
    (nowMs timeout : Nat)
    (hs : entries.Pairwise (fun a b => a.1 < b.1))
    (hpos : ∀ e ∈ entries, 0 < e.1) :
    (wait_for_response (entries.length + timeout + 2) entries
        (send_request_corr sender nowMs) timeout 0 0).1
      = entries.find? (fun e => isResponseFor (send_request_corr sender nowMs) e.2)
    ∧ (wait_for_response (entries.length + timeout + 2) entries
        (send_request_corr sender nowMs) timeout 0 0).2 ≤ timeout + 1 := by
  have hfeq : entries.filter (fun e => 0 < e.1) = entries :=
    List.filter_eq_self.mpr (fun a ha => by simp [hpos a ha])
  cases hfind : entries.find?
      (fun e => isResponseFor (send_request_corr sender nowMs) e.2) with
  | some r =>
      have h := wfr_finds entries (send_request_corr sender nowMs) timeout hs r
        (entries.length + timeout + 2) 0 0 (Nat.zero_le _)
        (by rw [hfeq]; exact hfind) (by rw [hfeq]; omega)
      rw [h]
      exact ⟨rfl, Nat.zero_le _⟩
  | none =>
      have h := wfr_timeout entries (send_request_corr sender nowMs) timeout hs
        (entries.length + timeout + 2) 0 0 (by omega)
        (by rw [hfeq]; exact hfind) (by rw [hfeq]; omega)
      exact ⟨h.1, h.2⟩

/-- C4 (witness): a stream holding one unrelated broadcast and one
response with the matching correlation id for the request of alice at
millisecond 7: the wait returns that response, within the time bound. -/
theorem c4_witness :
    (wait_for_response (2 + 5 + 2)
        [(1, [("message_type", JVal.s "broadcast")]),
         (2, [("message_type", JVal.s "response"), ("correlation_id", JVal.s "alice_7")])]
        (send_request_corr "alice" 7) 5 0 0).1
      = some (2, [("message_type", JVal.s "response"), ("correlation_id", JVal.s "alice_7")])
    ∧ (wait_for_response (2 + 5 + 2)
        [(1, [("message_type", JVal.s "broadcast")]),
         (2, [("message_type", JVal.s "response"), ("correlation_id", JVal.s "alice_7")])]
        (send_request_corr "alice" 7) 5 0 0).2 ≤ 5 + 1 := by
  have h := c4_wait_for_response
    [(1, [("message_type", JVal.s "broadcast")]),
     (2, [("message_type", JVal.s "response"), ("correlation_id", JVal.s "alice_7")])]
    "alice" 7 5 (by simp) (by simp)
  exact ⟨h.1.trans (by rfl), h.2⟩
